import Mathlib

/-!
Shallow embedding of the in-memory tag index service of `pkg/tindex/inmem.go`
(logrange).  The service maps canonical tag lines to journal identifiers,
persists the mapping to a file with a backup-rotation protocol, and reconciles
the loaded index against the journal backend at startup.

The tag library (`pkg/model/tag`), the LQL predicate compiler (`pkg/lql`) and
the id generator (`newSrc`) are external to the analysed source file; they are
modelled from the spec as parameters (`TagLib`, a `compile` function, and an
explicit fresh-id argument).  Go strings are modelled by an abstract type `Str`
with decidable equality; the Go map `tmap` is modelled as an association list
(its iteration order in Go is arbitrary, which the list order reflects because
all theorems quantify over it); the file system is a `Disk` record with a
fault-injection flag for a forced write failure; the mutex is a `locked` flag
so that lock acquisition/release on every return path is visible in the model.
-/

set_option linter.unusedSectionVars false

deriving instance DecidableEq for Except

namespace tindex

/-- Error taxonomy of the service (spec section 7). -/
inductive Err where
  | invalidTagFormat
  | emptySourceTags
  | serviceClosed
  | persistFailure
  | dataInconsistency
  | deserializeFailure
  | compileError
  deriving Repr, DecidableEq

/-- Modelled from the spec: the external tag canonicalizer contract
(`tag.Parse`, `tag.Set.Line`, `tag.Set.IsEmpty` of `pkg/model/tag`, which is
not part of the analysed source).  `Parse` turns a raw tag string into a tag
set or fails; `LineOf` is the canonical line of a tag set; `IsEmpty` tests for
the empty tag set. -/
structure TagLib (Str TS : Type) where
  Parse : Str → Except Err TS
  LineOf : TS → Str
  IsEmpty : TS → Bool

/-- `tagsDesc` of inmem.go: the tag set together with the journal id (`Src`).
Only `Src` is exported, hence only `Src` is serialized by `json.Marshal`. -/
structure tagsDesc (Str TS : Type) where
  tags : TS
  Src : Str
  deriving Repr, DecidableEq

/-- `InMemConfig` of inmem.go (only the field the analysed code reads). -/
structure InMemConfig where
  DoNotSave : Bool
  deriving Repr, DecidableEq

/-- The durable state: primary file `tindex.dat`, backup file `tindex.bak`,
and a fault-injection flag forcing the next write to fail.  A file's content
is the serialized index: a list of (canonical line, journal id) pairs. -/
structure Disk (Str : Type) where
  file : Option (List (Str × Str))
  bak : Option (List (Str × Str))
  failWrite : Bool
  deriving Repr, DecidableEq

/-- `inmemService` of inmem.go: config, the tag map, the `done` flag, and the
mutex state (`locked`). -/
structure inmemService (Str TS : Type) where
  Config : InMemConfig
  tmap : List (Str × tagsDesc Str TS)
  done : Bool
  locked : Bool
  deriving Repr, DecidableEq

/-- Service state together with the durable state it writes to. -/
structure SState (Str TS : Type) where
  svc : inmemService Str TS
  disk : Disk Str
  deriving Repr, DecidableEq

variable {Str TS Sel α : Type} [DecidableEq Str] [DecidableEq TS]

/-- Go map read `m[k]`: first (and, with distinct keys, only) binding of `k`. -/
def lookupL (m : List (Str × α)) (k : Str) : Option α :=
  (m.find? (fun p => decide (p.1 = k))).map (·.2)

/-- Go map write `m[k] = v`: overwrite the binding of `k`, or append it. -/
def setL (m : List (Str × α)) (k : Str) (v : α) : List (Str × α) :=
  if (lookupL m k).isSome then
    m.map (fun p => if p.1 = k then (k, v) else p)
  else
    m ++ [(k, v)]

/-- Go `delete(m, k)`: remove every binding of `k`. -/
def eraseL (m : List (Str × α)) (k : Str) : List (Str × α) :=
  m.filter (fun p => decide (p.1 ≠ k))

/-- `saveStateUnsafe` of inmem.go: no-op when `DoNotSave`; otherwise rename
the existing primary file to the backup name, serialize `tmap` (each entry
keeps only its `Src`, as in Go only the exported field is marshalled) and
write it to the primary name.  A forced write failure surfaces as
`persistFailure` after the rename has already happened. -/
def saveStateUnsafe (cfg : InMemConfig) (tmap : List (Str × tagsDesc Str TS))
    (d : Disk Str) : Except Err Unit × Disk Str :=
  if cfg.DoNotSave then (Except.ok (), d)
  else
    let d1 : Disk Str :=
      match d.file with
      | some f => { d with file := none, bak := some f }
      | none => d
    if d1.failWrite then (Except.error Err.persistFailure, d1)
    else (Except.ok (), { d1 with file := some (tmap.map (fun p => (p.1, p.2.Src))) })

/-- `GetOrCreateJournal` of inmem.go.  `L` is the tag library, `newId` the
fresh id `newSrc()` would produce on this call.  Mirrors the source line by
line; note that on the empty-tag-set path the source returns without calling
`ims.lock.Unlock()`, which the model reproduces by leaving `locked := true`. -/
def GetOrCreateJournal (L : TagLib Str TS) (newId : Str) (st : SState Str TS)
    (tags : Str) : Except Err Str × SState Str TS :=
  let svc := { st.svc with locked := true }
  if svc.done then
    (Except.error Err.serviceClosed, { st with svc := { svc with locked := false } })
  else
    match lookupL svc.tmap tags with
    | some td => (Except.ok td.Src, { st with svc := { svc with locked := false } })
    | none =>
      match L.Parse tags with
      | Except.error e =>
          (Except.error e, { st with svc := { svc with locked := false } })
      | Except.ok tgs =>
        if L.IsEmpty tgs then
          (Except.error Err.emptySourceTags, { st with svc := svc })
        else
          match lookupL svc.tmap (L.LineOf tgs) with
          | some td2 =>
              (Except.ok td2.Src, { st with svc := { svc with locked := false } })
          | none =>
            let td : tagsDesc Str TS := ⟨tgs, newId⟩
            let tmap1 := setL svc.tmap (L.LineOf tgs) td
            match saveStateUnsafe svc.Config tmap1 st.disk with
            | (Except.error e, d1) =>
                (Except.error e,
                  { svc := { svc with tmap := eraseL tmap1 (L.LineOf tgs), locked := false },
                    disk := d1 })
            | (Except.ok _, d1) =>
                (Except.ok td.Src,
                  { svc := { svc with tmap := tmap1, locked := false }, disk := d1 })

/-- The scan loop of `GetJournals`: for each entry whose tags satisfy `tef`,
increment `count`; add it to `res` while `res` has fewer than `maxSize`
entries; otherwise stop early unless `checkAll`. -/
def scanLoop (L : TagLib Str TS) (tef : TS → Bool) (maxSize : Int) (checkAll : Bool) :
    List (Str × tagsDesc Str TS) → Nat → List (Str × Str) → Nat × List (Str × Str)
  | [], count, res => (count, res)
  | td :: rest, count, res =>
    if tef td.2.tags then
      if (res.length : Int) < maxSize then
        scanLoop L tef maxSize checkAll rest (count + 1)
          (setL res (L.LineOf td.2.tags) td.2.Src)
      else if !checkAll then (count + 1, res)
      else scanLoop L tef maxSize checkAll rest (count + 1) res
    else scanLoop L tef maxSize checkAll rest count res

/-- `GetJournals` of inmem.go: compile the selector first (propagating the
compilation error before the shutdown flag is even consulted), then check
`done` under the lock, then scan. -/
def GetJournals (L : TagLib Str TS) (compile : Sel → Except Err (TS → Bool))
    (st : SState Str TS) (srcCond : Sel) (maxSize : Int) (checkAll : Bool) :
    Except Err (List (Str × Str) × Nat) × SState Str TS :=
  match compile srcCond with
  | Except.error e => (Except.error e, st)
  | Except.ok tef =>
    let svc := { st.svc with locked := true }
    if svc.done then
      (Except.error Err.serviceClosed, { st with svc := { svc with locked := false } })
    else
      let (count, res) := scanLoop L tef maxSize checkAll svc.tmap 0 []
      (Except.ok (res, count), { st with svc := { svc with locked := false } })

/-- `loadEntries`: deserialization of the persisted snapshot.  For every
stored (line, id) pair, re-derive the tag set by parsing the stored line;
fail the whole load if any stored line no longer parses (the `tag.Parse`
loop of `loadState`). -/
def loadEntries (L : TagLib Str TS) :
    List (Str × Str) → Except Err (List (Str × tagsDesc Str TS))
  | [] => Except.ok []
  | (ln, src) :: rest =>
    match L.Parse ln with
    | Except.error _ => Except.error Err.deserializeFailure
    | Except.ok tgs => (loadEntries L rest).map (fun l => (ln, ⟨tgs, src⟩) :: l)

/-- `json.Unmarshal` into an existing Go map merges entry by entry. -/
def mergeEntries (m : List (Str × tagsDesc Str TS)) :
    List (Str × tagsDesc Str TS) → List (Str × tagsDesc Str TS)
  | [] => m
  | p :: rest => mergeEntries (setL m p.1 p.2) rest

/-- `loadState` of inmem.go: a missing primary file is not an error (first
run, `tmap` untouched); otherwise deserialize, failing if any entry's stored
line no longer parses.  (On that failure Go leaves a partially re-parsed map
behind, but `Init` then fails, so no operation observes it; the model keeps
the pre-load state.) -/
def loadState (L : TagLib Str TS) (st : SState Str TS) :
    Except Err Unit × SState Str TS :=
  match st.disk.file with
  | none => (Except.ok (), st)
  | some data =>
    match loadEntries L data with
    | Except.error e => (Except.error e, st)
    | Except.ok entries =>
        (Except.ok (), { st with svc := { st.svc with tmap := mergeEntries st.svc.tmap entries } })

/-- The reconciliation loop of `checkConsistency`: walk the backend's journal
list; a journal absent from `km` marks the check failed, a present one is
removed from `km` (what remains of `km` is only warned about). -/
def reconLoop : List Str → List Str → Bool × List Str
  | [], km => (false, km)
  | src :: rest, km =>
    if src ∈ km then reconLoop rest (km.filter (fun x => decide (x ≠ src)))
    else
      let r := reconLoop rest km
      (true, r.2)

/-- `checkConsistency` of inmem.go: load the state, build the set of journal
ids referenced by the index, reconcile it against the backend's listing
(`knwnJrnls`), fail with `dataInconsistency` if some known journal has no
index entry, and otherwise re-save unconditionally. -/
def checkConsistency (L : TagLib Str TS) (knwnJrnls : List Str)
    (st : SState Str TS) : Except Err Unit × SState Str TS :=
  match loadState L st with
  | (Except.error e, st1) => (Except.error e, st1)
  | (Except.ok _, st1) =>
    let km := (st1.svc.tmap.map (fun p => p.2.Src)).dedup
    let r := reconLoop knwnJrnls km
    if r.1 then (Except.error Err.dataInconsistency, st1)
    else
      let (sres, d1) := saveStateUnsafe st1.svc.Config st1.svc.tmap st1.disk
      (sres, { st1 with disk := d1 })

/-- `Init` of inmem.go: clear the `done` flag, then run the consistency
check (which performs the load and the final save). -/
def Init (L : TagLib Str TS) (knwnJrnls : List Str) (st : SState Str TS) :
    Except Err Unit × SState Str TS :=
  checkConsistency L knwnJrnls { st with svc := { st.svc with done := false } }

/-- `Shutdown` of inmem.go: under the lock, set `done`. -/
def Shutdown (st : SState Str TS) : SState Str TS :=
  { st with svc := { st.svc with done := true, locked := false } }

/-- Well-formedness of the index map, maintained by the service: every
binding's key is the canonical line of its tag set, that line re-parses to
the same tag set, and the tag set is non-empty. -/
def wfMap (L : TagLib Str TS) (m : List (Str × tagsDesc Str TS)) : Prop :=
  ∀ p ∈ m, p.1 = L.LineOf p.2.tags ∧ L.Parse p.1 = Except.ok p.2.tags ∧
    L.IsEmpty p.2.tags = false

/-- A service call other than the lifecycle ones, for reasoning about call
sequences. -/
inductive Op (Str Sel : Type) where
  | getOrCreate (newId : Str) (tags : Str)
  | getJournals (srcCond : Sel) (maxSize : Int) (checkAll : Bool)

/-- True when a call's outcome is an error. -/
def isErr {β : Type} : Except Err β → Bool
  | Except.error _ => true
  | Except.ok _ => false

/-- Run one service call, returning the next state and whether it errored. -/
def runOp (L : TagLib Str TS) (compile : Sel → Except Err (TS → Bool))
    (st : SState Str TS) : Op Str Sel → SState Str TS × Bool
  | Op.getOrCreate newId tags =>
    let r := GetOrCreateJournal L newId st tags
    (r.2, isErr r.1)
  | Op.getJournals srcCond maxSize checkAll =>
    let r := GetJournals L compile st srcCond maxSize checkAll
    (r.2, isErr r.1)

/-- Run a sequence of service calls, collecting the error flags. -/
def runOps (L : TagLib Str TS) (compile : Sel → Except Err (TS → Bool)) :
    SState Str TS → List (Op Str Sel) → SState Str TS × List Bool
  | st, [] => (st, [])
  | st, op :: ops =>
    let r := runOp L compile st op
    let rest := runOps L compile r.1 ops
    (rest.1, r.2 :: rest.2)

/-- Concrete strings for evaluating the theorems on closed inputs. -/
abbrev WStr : Type := List Nat

/-- Modelled from the spec: a concrete instance of the tag canonicalizer
contract, for evaluating the theorems on closed inputs.  A tag set is a list
of numbers, its canonical line is itself (so parsing a canonical line gives
the set back), and the single raw string `[0]` is malformed. -/
def wTagLib : TagLib WStr WStr :=
  { Parse := fun s => if s = [0] then Except.error Err.invalidTagFormat else Except.ok s
    LineOf := fun t => t
    IsEmpty := fun t => t.isEmpty }

/-- Concrete durable state: no files yet, writes succeed. -/
def wDisk : Disk WStr :=
  { file := none, bak := none, failWrite := true }

/-- Concrete fresh service: persistence enabled, empty index, running. -/
def wSvc : inmemService WStr WStr :=
  { Config := { DoNotSave := false }, tmap := [], done := false, locked := false }

/-- Concrete fresh running state with reliable persistence. -/
def wState : SState WStr WStr :=
  { svc := wSvc, disk := { wDisk with failWrite := false } }

/-- Concrete state after shutdown. -/
def wStateDown : SState WStr WStr :=
  { svc := { wSvc with done := true }, disk := { wDisk with failWrite := false } }

/-- Concrete state whose persisted file holds one entry with an unparseable
stored line. -/
def wStateBad : SState WStr WStr :=
  { svc := wSvc, disk := { file := some [([0], [7])], bak := none, failWrite := false } }

/-- Concrete state indexing journals `[10]` (for line `[1]`) and `[11]`
(for line `[2]`). -/
def wStateAB : SState WStr WStr :=
  { svc := { Config := { DoNotSave := false },
             tmap := [([1], ⟨[1], [10]⟩), ([2], ⟨[2], [11]⟩)],
             done := false, locked := false }
    disk := { file := none, bak := none, failWrite := false } }

/-- Concrete running state with five entries, all of which match a trivial
selector. -/
def wStateFive : SState WStr WStr :=
  { svc := { Config := { DoNotSave := false },
             tmap := [([1], ⟨[1], [10]⟩), ([2], ⟨[2], [11]⟩), ([3], ⟨[3], [12]⟩),
                      ([4], ⟨[4], [13]⟩), ([5], ⟨[5], [14]⟩)],
             done := false, locked := false }
    disk := { file := none, bak := none, failWrite := false } }

theorem lookupL_nil {k : Str} : lookupL ([] : List (Str × α)) k = none := rfl

theorem lookupL_cons {p : Str × α} {m : List (Str × α)} {k : Str} :
    lookupL (p :: m) k = if p.1 = k then some p.2 else lookupL m k := by
  by_cases h : p.1 = k <;> simp [lookupL, List.find?_cons, h]

theorem lookupL_eq_none {m : List (Str × α)} {k : Str} :
    lookupL m k = none ↔ ∀ p ∈ m, p.1 ≠ k := by
  induction m with
  | nil => simp [lookupL_nil]
  | cons p m ih =>
    rw [lookupL_cons]
    by_cases h : p.1 = k <;> simp [h, ih]

theorem lookupL_some_mem {m : List (Str × α)} {k : Str} {v : α}
    (h : lookupL m k = some v) : (k, v) ∈ m := by
  induction m with
  | nil => simp [lookupL_nil] at h
  | cons p m ih =>
    rw [lookupL_cons] at h
    by_cases hp : p.1 = k
    · rw [if_pos hp] at h
      cases h
      have hpk : (k, p.2) = p := by
        cases p
        simp_all
      rw [hpk]
      exact List.mem_cons_self p m
    · rw [if_neg hp] at h
      exact List.mem_cons_of_mem _ (ih h)

theorem lookupL_append {m l : List (Str × α)} {k : Str} (h : lookupL m k = none) :
    lookupL (m ++ l) k = lookupL l k := by
  induction m with
  | nil => rfl
  | cons p m ih =>
    rw [lookupL_eq_none] at h
    have hp : p.1 ≠ k := h p (List.mem_cons_self p m)
    have hm : lookupL m k = none :=
      lookupL_eq_none.mpr fun q hq => h q (List.mem_cons_of_mem p hq)
    rw [List.cons_append, lookupL_cons, if_neg hp]
    exact ih hm

theorem filter_key_nil {m : List (Str × α)} {k : Str} (h : ∀ p ∈ m, p.1 ≠ k) :
    m.filter (fun p => decide (p.1 = k)) = [] := by
  induction m with
  | nil => rfl
  | cons p m ih =>
    rw [List.filter_cons, if_neg (by simp [h p (List.mem_cons_self p m)])]
    exact ih fun q hq => h q (List.mem_cons_of_mem p hq)

theorem filter_key_singleton {m : List (Str × α)} {k : Str} {v : α}
    (hnd : (m.map Prod.fst).Nodup) (h : (k, v) ∈ m) :
    m.filter (fun p => decide (p.1 = k)) = [(k, v)] := by
  induction m with
  | nil => cases h
  | cons p m ih =>
    rw [List.map_cons, List.nodup_cons] at hnd
    rcases List.mem_cons.mp h with h1 | h1
    · subst h1
      rw [List.filter_cons, if_pos (by simp)]
      have hk : k ∉ m.map Prod.fst := hnd.1
      have hnil : m.filter (fun p => decide (p.1 = k)) = [] :=
        filter_key_nil fun q hq hqk => hk (hqk ▸ List.mem_map_of_mem Prod.fst hq)
      rw [hnil]
    · have hp : p.1 ≠ k := fun he => hnd.1 (he ▸ List.mem_map_of_mem Prod.fst h1)
      rw [List.filter_cons, if_neg (by simp [hp])]
      exact ih hnd.2 h1

theorem setL_absent {m : List (Str × α)} {k : Str} {v : α} (h : lookupL m k = none) :
    setL m k v = m ++ [(k, v)] := by
  simp [setL, h]

theorem eraseL_append {m : List (Str × α)} {k : Str} {v : α}
    (h : ∀ p ∈ m, p.1 ≠ k) : eraseL (m ++ [(k, v)]) k = m := by
  rw [eraseL, List.filter_append]
  have h1 : m.filter (fun p => decide (p.1 ≠ k)) = m :=
    List.filter_eq_self.mpr fun p hp => by simp [h p hp]
  have h2 : ([(k, v)] : List (Str × α)).filter (fun p => decide (p.1 ≠ k)) = [] := by simp
  rw [h1, h2, List.append_nil]

theorem saveStateUnsafe_ok {cfg : InMemConfig} {tmap : List (Str × tagsDesc Str TS)}
    {d : Disk Str} (hfw : d.failWrite = false) :
    (saveStateUnsafe cfg tmap d).1 = Except.ok () := by
  unfold saveStateUnsafe
  by_cases hc : cfg.DoNotSave
  · simp [hc]
  · cases hf : d.file <;> simp [hc, hf, hfw]

theorem saveStateUnsafe_fail {cfg : InMemConfig} {tmap : List (Str × tagsDesc Str TS)}
    {d : Disk Str} (hns : cfg.DoNotSave = false) (hfw : d.failWrite = true) :
    (saveStateUnsafe cfg tmap d).1 = Except.error Err.persistFailure := by
  unfold saveStateUnsafe
  cases hf : d.file <;> simp [hns, hf, hfw]

/-- C6: an input whose parse succeeds with an empty tag set is rejected with
`emptySourceTags`; no Index Entry is created and no file is written — the
in-memory index and the durable state are both unchanged. -/
theorem getOrCreate_empty_tags (L : TagLib Str TS) (newId : Str) (st : SState Str TS)
    (s : Str) (t : TS)
    (hdone : st.svc.done = false)
    (hwf : wfMap L st.svc.tmap)
    (hp : L.Parse s = Except.ok t)
    (he : L.IsEmpty t = true) :
    (GetOrCreateJournal L newId st s).1 = Except.error Err.emptySourceTags ∧
    (GetOrCreateJournal L newId st s).2.svc.tmap = st.svc.tmap ∧
    (GetOrCreateJournal L newId st s).2.disk = st.disk := by
  have hlk : lookupL st.svc.tmap s = none := by
    cases hl : lookupL st.svc.tmap s with
    | none => rfl
    | some td =>
      exfalso
      obtain ⟨-, hparse, hne⟩ := hwf (s, td) (lookupL_some_mem hl)
      rw [hp] at hparse
      injection hparse with ht
      rw [ht] at he
      rw [he] at hne
      cases hne
  simp [GetOrCreateJournal, hdone, hlk, hp, he]

/-- C6 witness: the concrete raw string parsing to the empty tag set is
rejected, the index and disk untouched. -/
theorem getOrCreate_empty_tags_witness :
    (GetOrCreateJournal wTagLib [5] wState []).1 = Except.error Err.emptySourceTags ∧
    (GetOrCreateJournal wTagLib [5] wState []).2.svc.tmap = wState.svc.tmap ∧
    (GetOrCreateJournal wTagLib [5] wState []).2.disk = wState.disk :=
  getOrCreate_empty_tags wTagLib [5] wState [] [] rfl
    (fun p hp => absurd hp (List.not_mem_nil p)) (by decide) rfl

/-- C10: on the empty-tag-set error path (inmem.go lines 105-107),
`GetOrCreateJournal` returns while still holding the mutex: the path lacks
the `ims.lock.Unlock()` call that every other return path performs. -/
theorem getOrCreate_empty_tags_keeps_lock :
    (GetOrCreateJournal wTagLib [5] wState []).1 = Except.error Err.emptySourceTags ∧
    wState.svc.locked = false ∧
    (GetOrCreateJournal wTagLib [5] wState []).2.svc.locked = true := by decide

/-- C2: when the synchronous persist of a newly inserted entry fails, the
entry is deleted again before the error is returned, so the in-memory index
after the failed call equals the index before it. -/
theorem getOrCreate_persist_fail_rollback (L : TagLib Str TS) (newId : Str)
    (st : SState Str TS) (s : Str) (t : TS)
    (hdone : st.svc.done = false)
    (hp : L.Parse s = Except.ok t)
    (he : L.IsEmpty t = false)
    (hl1 : lookupL st.svc.tmap s = none)
    (hl2 : lookupL st.svc.tmap (L.LineOf t) = none)
    (hns : st.svc.Config.DoNotSave = false)
    (hfw : st.disk.failWrite = true) :
    (GetOrCreateJournal L newId st s).1 = Except.error Err.persistFailure ∧
    (GetOrCreateJournal L newId st s).2.svc.tmap = st.svc.tmap := by
  have hset : setL st.svc.tmap (L.LineOf t) ⟨t, newId⟩ =
      st.svc.tmap ++ [(L.LineOf t, ⟨t, newId⟩)] := setL_absent hl2
  have herase :
      eraseL (st.svc.tmap ++ [(L.LineOf t, (⟨t, newId⟩ : tagsDesc Str TS))]) (L.LineOf t) =
        st.svc.tmap := eraseL_append (lookupL_eq_none.mp hl2)
  obtain ⟨r, d1, hsv⟩ :
      ∃ r d1, saveStateUnsafe st.svc.Config
        (st.svc.tmap ++ [(L.LineOf t, (⟨t, newId⟩ : tagsDesc Str TS))]) st.disk = (r, d1) :=
    ⟨_, _, rfl⟩
  have hr : r = Except.error Err.persistFailure := by
    have hfst : (saveStateUnsafe st.svc.Config
        (st.svc.tmap ++ [(L.LineOf t, (⟨t, newId⟩ : tagsDesc Str TS))]) st.disk).1 =
        Except.error Err.persistFailure := saveStateUnsafe_fail hns hfw
    rw [hsv] at hfst
    exact hfst
  subst hr
  simp [GetOrCreateJournal, hdone, hl1, hp, he, hl2, hset, hsv, herase]

/-- C2 witness: a concrete forced write failure rolls the insertion back. -/
theorem getOrCreate_persist_fail_rollback_witness :
    (GetOrCreateJournal wTagLib [5] { wState with disk := wDisk } [1]).1 =
      Except.error Err.persistFailure ∧
    (GetOrCreateJournal wTagLib [5] { wState with disk := wDisk } [1]).2.svc.tmap =
      ({ wState with disk := wDisk } : SState WStr WStr).svc.tmap :=
  getOrCreate_persist_fail_rollback wTagLib [5] { wState with disk := wDisk } [1] [1]
    rfl (by decide) rfl rfl rfl rfl rfl

theorem unlock_eq (st : SState Str TS) (h : st.svc.locked = false) :
    ({ st with svc := { st.svc with locked := false } } : SState Str TS) = st := by
  obtain ⟨⟨c, tm, dn, lk⟩, dsk⟩ := st
  simp_all

theorem getOrCreate_hit (L : TagLib Str TS) (newId : Str) (st : SState Str TS)
    (s : Str) (td : tagsDesc Str TS)
    (hdone : st.svc.done = false)
    (hlk : lookupL st.svc.tmap s = some td) :
    GetOrCreateJournal L newId st s =
      (Except.ok td.Src, { st with svc := { st.svc with locked := false } }) := by
  simp [GetOrCreateJournal, hdone, hlk]

theorem getOrCreate_slow_hit (L : TagLib Str TS) (newId : Str) (st : SState Str TS)
    (s : Str) (t : TS) (td2 : tagsDesc Str TS)
    (hdone : st.svc.done = false)
    (hl1 : lookupL st.svc.tmap s = none)
    (hp : L.Parse s = Except.ok t)
    (he : L.IsEmpty t = false)
    (hl2 : lookupL st.svc.tmap (L.LineOf t) = some td2) :
    GetOrCreateJournal L newId st s =
      (Except.ok td2.Src, { st with svc := { st.svc with locked := false } }) := by
  simp [GetOrCreateJournal, hdone, hl1, hp, he, hl2]

theorem getOrCreate_hit_unlocked (L : TagLib Str TS) (newId : Str) (st : SState Str TS)
    (s : Str) (td : tagsDesc Str TS)
    (hdone : st.svc.done = false)
    (hlk : lookupL st.svc.tmap s = some td)
    (hul : st.svc.locked = false) :
    GetOrCreateJournal L newId st s = (Except.ok td.Src, st) := by
  rw [getOrCreate_hit L newId st s td hdone hlk, unlock_eq st hul]

theorem getOrCreate_slow_hit_unlocked (L : TagLib Str TS) (newId : Str)
    (st : SState Str TS) (s : Str) (t : TS) (td2 : tagsDesc Str TS)
    (hdone : st.svc.done = false)
    (hl1 : lookupL st.svc.tmap s = none)
    (hp : L.Parse s = Except.ok t)
    (he : L.IsEmpty t = false)
    (hl2 : lookupL st.svc.tmap (L.LineOf t) = some td2)
    (hul : st.svc.locked = false) :
    GetOrCreateJournal L newId st s = (Except.ok td2.Src, st) := by
  rw [getOrCreate_slow_hit L newId st s t td2 hdone hl1 hp he hl2, unlock_eq st hul]

theorem getOrCreate_create (L : TagLib Str TS) (newId : Str) (st : SState Str TS)
    (s : Str) (t : TS)
    (hdone : st.svc.done = false)
    (hl1 : lookupL st.svc.tmap s = none)
    (hp : L.Parse s = Except.ok t)
    (he : L.IsEmpty t = false)
    (hl2 : lookupL st.svc.tmap (L.LineOf t) = none)
    (hfw : st.disk.failWrite = false) :
    ∃ d1,
      GetOrCreateJournal L newId st s =
        (Except.ok newId,
          { svc := { st.svc with
              tmap := st.svc.tmap ++ [(L.LineOf t, ⟨t, newId⟩)], locked := false },
            disk := d1 }) := by
  obtain ⟨r, d1, hsv⟩ :
      ∃ r d1, saveStateUnsafe st.svc.Config
        (st.svc.tmap ++ [(L.LineOf t, (⟨t, newId⟩ : tagsDesc Str TS))]) st.disk = (r, d1) :=
    ⟨_, _, rfl⟩
  have hr : r = Except.ok () := by
    have h : (saveStateUnsafe st.svc.Config
        (st.svc.tmap ++ [(L.LineOf t, (⟨t, newId⟩ : tagsDesc Str TS))]) st.disk).1 =
        Except.ok () := saveStateUnsafe_ok hfw
    rw [hsv] at h
    exact h
  subst hr
  refine ⟨d1, ?_⟩
  simp [GetOrCreateJournal, hdone, hl1, hp, he, hl2, setL_absent hl2, hsv]

/-- C1: two `GetOrCreateJournal` calls whose raw tag strings canonicalize to
the same line return the same journal id, the second call changes nothing at
all (no insertion, no save, no state change), and afterwards the index holds
exactly one entry for that canonical line. -/
theorem getOrCreate_idempotent (L : TagLib Str TS) (id1 id2 : Str)
    (st0 : SState Str TS) (s1 s2 : Str) (t1 t2 : TS)
    (hdone : st0.svc.done = false)
    (hwf : wfMap L st0.svc.tmap)
    (hnd : (st0.svc.tmap.map Prod.fst).Nodup)
    (hp1 : L.Parse s1 = Except.ok t1) (hp2 : L.Parse s2 = Except.ok t2)
    (he1 : L.IsEmpty t1 = false) (he2 : L.IsEmpty t2 = false)
    (hline : L.LineOf t1 = L.LineOf t2)
    (hfw : st0.disk.failWrite = false) :
    ∃ j,
      (GetOrCreateJournal L id1 st0 s1).1 = Except.ok j ∧
      (GetOrCreateJournal L id2 (GetOrCreateJournal L id1 st0 s1).2 s2).1 = Except.ok j ∧
      (GetOrCreateJournal L id2 (GetOrCreateJournal L id1 st0 s1).2 s2).2 =
        (GetOrCreateJournal L id1 st0 s1).2 ∧
      ((GetOrCreateJournal L id1 st0 s1).2.svc.tmap.filter
        (fun p => decide (p.1 = L.LineOf t1))).length = 1 := by
  cases hl1 : lookupL st0.svc.tmap s1 with
  | some td1 =>
    have hk1 : s1 = L.LineOf td1.tags := (hwf (s1, td1) (lookupL_some_mem hl1)).1
    have hpr1 : L.Parse s1 = Except.ok td1.tags := (hwf (s1, td1) (lookupL_some_mem hl1)).2.1
    have htag1 : td1.tags = t1 := by
      rw [hp1] at hpr1
      injection hpr1 with h
      exact h.symm
    have hkey1 : s1 = L.LineOf t1 := by rw [hk1, htag1]
    have hc1 : GetOrCreateJournal L id1 st0 s1 =
        (Except.ok td1.Src, { st0 with svc := { st0.svc with locked := false } }) :=
      getOrCreate_hit L id1 st0 s1 td1 hdone hl1
    have hc2 : GetOrCreateJournal L id2
        { st0 with svc := { st0.svc with locked := false } } s2 =
        (Except.ok td1.Src, { st0 with svc := { st0.svc with locked := false } }) := by
      cases hl2 : lookupL st0.svc.tmap s2 with
      | some td2' =>
        have hk2 : s2 = L.LineOf td2'.tags := (hwf (s2, td2') (lookupL_some_mem hl2)).1
        have hpr2 : L.Parse s2 = Except.ok td2'.tags :=
          (hwf (s2, td2') (lookupL_some_mem hl2)).2.1
        have htag2 : td2'.tags = t2 := by
          rw [hp2] at hpr2
          injection hpr2 with h
          exact h.symm
        have hs21 : s2 = s1 := by rw [hk2, htag2, ← hline, ← htag1, ← hk1]
        have hlk2 : lookupL st0.svc.tmap s2 = some td1 := by
          rw [hs21]
          exact hl1
        exact getOrCreate_hit_unlocked L id2 _ s2 td1 hdone hlk2 rfl
      | none =>
        have hlk2 : lookupL st0.svc.tmap (L.LineOf t2) = some td1 := by
          rw [← hline, ← hkey1]
          exact hl1
        exact getOrCreate_slow_hit_unlocked L id2 _ s2 t2 td1 hdone hl2 hp2 he2 hlk2 rfl
    refine ⟨td1.Src, ?_, ?_, ?_, ?_⟩
    · simp only [hc1]
    · simp only [hc1, hc2]
    · simp only [hc1, hc2]
    · simp only [hc1]
      show ((st0.svc.tmap.filter (fun p => decide (p.1 = L.LineOf t1)))).length = 1
      rw [← hkey1, filter_key_singleton hnd (lookupL_some_mem hl1)]
      rfl
  | none =>
    cases hl2 : lookupL st0.svc.tmap (L.LineOf t1) with
    | some td2 =>
      have hc1 : GetOrCreateJournal L id1 st0 s1 =
          (Except.ok td2.Src, { st0 with svc := { st0.svc with locked := false } }) :=
        getOrCreate_slow_hit L id1 st0 s1 t1 td2 hdone hl1 hp1 he1 hl2
      have hc2 : GetOrCreateJournal L id2
          { st0 with svc := { st0.svc with locked := false } } s2 =
          (Except.ok td2.Src, { st0 with svc := { st0.svc with locked := false } }) := by
        cases hl2' : lookupL st0.svc.tmap s2 with
        | some td' =>
          have hk2 : s2 = L.LineOf td'.tags := (hwf (s2, td') (lookupL_some_mem hl2')).1
          have hpr2 : L.Parse s2 = Except.ok td'.tags :=
            (hwf (s2, td') (lookupL_some_mem hl2')).2.1
          have htag2 : td'.tags = t2 := by
            rw [hp2] at hpr2
            injection hpr2 with h
            exact h.symm
          have hs2L : s2 = L.LineOf t1 := by rw [hk2, htag2, ← hline]
          have hlk2 : lookupL st0.svc.tmap s2 = some td2 := by
            rw [hs2L]
            exact hl2
          exact getOrCreate_hit_unlocked L id2 _ s2 td2 hdone hlk2 rfl
        | none =>
          have hlk2 : lookupL st0.svc.tmap (L.LineOf t2) = some td2 := by
            rw [← hline]
            exact hl2
          exact getOrCreate_slow_hit_unlocked L id2 _ s2 t2 td2 hdone hl2' hp2 he2 hlk2 rfl
      refine ⟨td2.Src, ?_, ?_, ?_, ?_⟩
      · simp only [hc1]
      · simp only [hc1, hc2]
      · simp only [hc1, hc2]
      · simp only [hc1]
        show ((st0.svc.tmap.filter (fun p => decide (p.1 = L.LineOf t1)))).length = 1
        rw [filter_key_singleton hnd (lookupL_some_mem hl2)]
        rfl
    | none =>
      obtain ⟨d1, hc1⟩ := getOrCreate_create L id1 st0 s1 t1 hdone hl1 hp1 he1 hl2 hfw
      have hc2 : GetOrCreateJournal L id2
          { svc := { st0.svc with
                tmap := st0.svc.tmap ++ [(L.LineOf t1, ⟨t1, id1⟩)], locked := false },
              disk := d1 } s2 =
          (Except.ok id1,
            { svc := { st0.svc with
                tmap := st0.svc.tmap ++ [(L.LineOf t1, ⟨t1, id1⟩)], locked := false },
              disk := d1 }) := by
        cases hraw : lookupL st0.svc.tmap s2 with
        | some td' =>
          have hk2 : s2 = L.LineOf td'.tags := (hwf (s2, td') (lookupL_some_mem hraw)).1
          have hpr2 : L.Parse s2 = Except.ok td'.tags :=
            (hwf (s2, td') (lookupL_some_mem hraw)).2.1
          have htag2 : td'.tags = t2 := by
            rw [hp2] at hpr2
            injection hpr2 with h
            exact h.symm
          have hs2L : s2 = L.LineOf t1 := by rw [hk2, htag2, ← hline]
          rw [hs2L, hl2] at hraw
          exact Option.noConfusion hraw
        | none =>
          by_cases hs2 : s2 = L.LineOf t1
          · have hlk : lookupL (st0.svc.tmap ++ [(L.LineOf t1,
                (⟨t1, id1⟩ : tagsDesc Str TS))]) s2 = some ⟨t1, id1⟩ := by
              rw [lookupL_append hraw, hs2, lookupL_cons]
              simp
            exact getOrCreate_hit_unlocked L id2 _ s2 ⟨t1, id1⟩ hdone hlk rfl
          · have hlk1 : lookupL (st0.svc.tmap ++ [(L.LineOf t1,
                (⟨t1, id1⟩ : tagsDesc Str TS))]) s2 = none := by
              rw [lookupL_append hraw, lookupL_cons, if_neg (fun h => hs2 h.symm)]
              rfl
            have hlk2 : lookupL (st0.svc.tmap ++ [(L.LineOf t1,
                (⟨t1, id1⟩ : tagsDesc Str TS))]) (L.LineOf t2) = some ⟨t1, id1⟩ := by
              rw [← hline, lookupL_append hl2, lookupL_cons]
              simp
            exact getOrCreate_slow_hit_unlocked L id2 _ s2 t2 ⟨t1, id1⟩ hdone hlk1
              hp2 he2 hlk2 rfl
      refine ⟨id1, ?_, ?_, ?_, ?_⟩
      · simp only [hc1]
      · simp only [hc1, hc2]
      · simp only [hc1, hc2]
      · simp only [hc1]
        show ((st0.svc.tmap ++ [(L.LineOf t1, (⟨t1, id1⟩ : tagsDesc Str TS))]).filter
          (fun p => decide (p.1 = L.LineOf t1))).length = 1
        rw [List.filter_append, filter_key_nil (lookupL_eq_none.mp hl2)]
        simp

/-- C1 witness: the same raw string submitted twice to a fresh service. -/
theorem getOrCreate_idempotent_witness :
    ∃ j,
      (GetOrCreateJournal wTagLib [5] wState [1]).1 = Except.ok j ∧
      (GetOrCreateJournal wTagLib [6] (GetOrCreateJournal wTagLib [5] wState [1]).2 [1]).1 =
        Except.ok j ∧
      (GetOrCreateJournal wTagLib [6] (GetOrCreateJournal wTagLib [5] wState [1]).2 [1]).2 =
        (GetOrCreateJournal wTagLib [5] wState [1]).2 ∧
      ((GetOrCreateJournal wTagLib [5] wState [1]).2.svc.tmap.filter
        (fun p => decide (p.1 = wTagLib.LineOf [1]))).length = 1 :=
  getOrCreate_idempotent wTagLib [5] [6] wState [1] [1] [1] [1] rfl
    (fun p hp => absurd hp (List.not_mem_nil p)) (by decide) (by decide) (by decide)
    rfl rfl rfl rfl

theorem loadEntries_roundtrip (L : TagLib Str TS) (m : List (Str × tagsDesc Str TS))
    (hwf : ∀ p ∈ m, L.Parse p.1 = Except.ok p.2.tags) :
    loadEntries L (m.map fun p => (p.1, p.2.Src)) = Except.ok m := by
  induction m with
  | nil => rfl
  | cons p rest ih =>
    obtain ⟨k, tg, src⟩ := p
    have hk : L.Parse k = Except.ok tg := hwf (k, ⟨tg, src⟩) (List.mem_cons_self _ rest)
    simp only [List.map_cons, loadEntries, hk,
      ih fun q hq => hwf q (List.mem_cons_of_mem _ hq)]
    rfl

theorem mergeEntries_disjoint :
    ∀ (entries m : List (Str × tagsDesc Str TS)),
      (∀ q ∈ entries, lookupL m q.1 = none) →
      (entries.map Prod.fst).Nodup →
      mergeEntries m entries = m ++ entries := by
  intro entries
  induction entries with
  | nil => intro m _ _; simp [mergeEntries]
  | cons p rest ih =>
    intro m hdis hnd
    rw [List.map_cons, List.nodup_cons] at hnd
    have hp : lookupL m p.1 = none := hdis p (List.mem_cons_self p rest)
    simp only [mergeEntries]
    rw [setL_absent hp, ih (m ++ [(p.1, p.2)]) ?dis hnd.2]
    · simp
    case dis =>
      intro q hq
      have hne : ((p.1, p.2) : Str × tagsDesc Str TS).1 = q.1 → False := fun h => by
        have h1 : p.1 = q.1 := h
        exact hnd.1 (h1 ▸ List.mem_map_of_mem Prod.fst hq)
      rw [lookupL_append (hdis q (List.mem_cons_of_mem p hq)), lookupL_cons, if_neg hne]
      rfl

theorem saveStateUnsafe_file {cfg : InMemConfig} {tmap : List (Str × tagsDesc Str TS)}
    {d : Disk Str} (hns : cfg.DoNotSave = false) (hfw : d.failWrite = false) :
    (saveStateUnsafe cfg tmap d).2.file = some (tmap.map fun p => (p.1, p.2.Src)) := by
  unfold saveStateUnsafe
  cases hf : d.file <;> simp [hns, hf, hfw]

/-- C3: saving an index and loading the saved file into a fresh service
reproduces the index exactly — the canonical lines, the tag set of each line
and the journal id of each line are all unchanged. -/
theorem save_load_round_trip (L : TagLib Str TS) (st : SState Str TS)
    (fresh : SState Str TS)
    (hwf : ∀ p ∈ st.svc.tmap, L.Parse p.1 = Except.ok p.2.tags)
    (hnd : (st.svc.tmap.map Prod.fst).Nodup)
    (hns : st.svc.Config.DoNotSave = false)
    (hfw : st.disk.failWrite = false)
    (hft : fresh.svc.tmap = []) :
    ∃ d1, saveStateUnsafe st.svc.Config st.svc.tmap st.disk = (Except.ok (), d1) ∧
      (loadState L { fresh with disk := d1 }).1 = Except.ok () ∧
      (loadState L { fresh with disk := d1 }).2.svc.tmap = st.svc.tmap := by
  obtain ⟨r, d1, hsv⟩ :
      ∃ r d1, saveStateUnsafe st.svc.Config st.svc.tmap st.disk = (r, d1) := ⟨_, _, rfl⟩
  have hr : r = Except.ok () := by
    have h : (saveStateUnsafe st.svc.Config st.svc.tmap st.disk).1 = Except.ok () :=
      saveStateUnsafe_ok hfw
    rw [hsv] at h
    exact h
  subst hr
  have hfile : d1.file = some (st.svc.tmap.map fun p => (p.1, p.2.Src)) := by
    have h : (saveStateUnsafe st.svc.Config st.svc.tmap st.disk).2.file =
        some (st.svc.tmap.map fun p => (p.1, p.2.Src)) := saveStateUnsafe_file hns hfw
    rw [hsv] at h
    exact h
  have hle : loadEntries L (st.svc.tmap.map fun p => (p.1, p.2.Src)) =
      Except.ok st.svc.tmap := loadEntries_roundtrip L _ hwf
  have hme : mergeEntries ([] : List (Str × tagsDesc Str TS)) st.svc.tmap = st.svc.tmap := by
    rw [mergeEntries_disjoint st.svc.tmap [] (fun q _ => rfl) hnd]
    rfl
  refine ⟨d1, hsv, ?_, ?_⟩ <;> simp [loadState, hfile, hle, hft, hme]

/-- C3 witness: the two-entry index saved and loaded back into a fresh
service. -/
theorem save_load_round_trip_witness :
    ∃ d1, saveStateUnsafe wStateAB.svc.Config wStateAB.svc.tmap wStateAB.disk =
        (Except.ok (), d1) ∧
      (loadState wTagLib { wState with disk := d1 }).1 = Except.ok () ∧
      (loadState wTagLib { wState with disk := d1 }).2.svc.tmap = wStateAB.svc.tmap :=
  save_load_round_trip wTagLib wStateAB wState (by decide) (by decide) rfl rfl rfl

theorem loadEntries_error (L : TagLib Str TS) (data : List (Str × Str))
    (ln src : Str) (e : Err)
    (hmem : (ln, src) ∈ data) (hp : L.Parse ln = Except.error e) :
    loadEntries L data = Except.error Err.deserializeFailure := by
  induction data with
  | nil => cases hmem
  | cons q rest ih =>
    obtain ⟨a, b⟩ := q
    rcases List.mem_cons.mp hmem with h1 | h1
    · injection h1 with ha hb
      subst ha
      simp [loadEntries, hp]
    · simp only [loadEntries]
      cases hq : L.Parse a with
      | error _ => rfl
      | ok tgs => rw [ih h1]; rfl

/-- C9: a missing primary file makes the load a successful no-op yielding the
(empty) initial index, while a stored entry whose line no longer parses makes
the whole load fail. -/
theorem loadState_spec (L : TagLib Str TS) (st : SState Str TS) :
    (st.disk.file = none → st.svc.tmap = [] →
      (loadState L st).1 = Except.ok () ∧ (loadState L st).2.svc.tmap = []) ∧
    (∀ data ln src e, st.disk.file = some data → (ln, src) ∈ data →
      L.Parse ln = Except.error e →
      (loadState L st).1 = Except.error Err.deserializeFailure) := by
  constructor
  · intro hf he
    simp [loadState, hf, he]
  · intro data ln src e hf hmem hp
    simp [loadState, hf, loadEntries_error L data ln src e hmem hp]

/-- C9 witness: the theorem evaluated on a first run and on a corrupt file. -/
theorem loadState_spec_witness :
    ((loadState wTagLib wState).1 = Except.ok () ∧
      (loadState wTagLib wState).2.svc.tmap = []) ∧
    (loadState wTagLib wStateBad).1 = Except.error Err.deserializeFailure :=
  ⟨(loadState_spec wTagLib wState).1 rfl rfl,
   (loadState_spec wTagLib wStateBad).2 [([0], [7])] [0] [7] Err.invalidTagFormat
     rfl (by decide) (by decide)⟩

/-- C7 (amended): after shutdown, `GetOrCreateJournal` fails with
`serviceClosed` and leaves the index unchanged; so does `GetJournals`
provided its selector compiles — a selector whose compilation fails returns
the compilation error instead, because the compiler runs before the shutdown
flag is consulted. -/
theorem calls_after_shutdown_fail (L : TagLib Str TS)
    (compile : Sel → Except Err (TS → Bool)) (newId s : Str) (sel : Sel)
    (maxSize : Int) (checkAll : Bool) (st : SState Str TS)
    (hdone : st.svc.done = true) :
    ((GetOrCreateJournal L newId st s).1 = Except.error Err.serviceClosed ∧
      (GetOrCreateJournal L newId st s).2.svc.tmap = st.svc.tmap) ∧
    (∀ tef, compile sel = Except.ok tef →
      (GetJournals L compile st sel maxSize checkAll).1 = Except.error Err.serviceClosed ∧
      (GetJournals L compile st sel maxSize checkAll).2.svc.tmap = st.svc.tmap) := by
  constructor
  · constructor <;> simp [GetOrCreateJournal, hdone]
  · intro tef hc
    constructor <;> simp [GetJournals, hc, hdone]

/-- C7 witness: both calls on a concrete shut-down state. -/
theorem calls_after_shutdown_fail_witness :
    (GetOrCreateJournal wTagLib [5] wStateDown [1]).1 = Except.error Err.serviceClosed ∧
    (GetJournals wTagLib (fun _ : Nat => Except.ok fun _ => true) wStateDown 0 10 true).1 =
      Except.error Err.serviceClosed :=
  ⟨(calls_after_shutdown_fail wTagLib (fun _ : Nat => Except.ok fun _ => true)
      [5] [1] 0 10 true wStateDown rfl).1.1,
   ((calls_after_shutdown_fail wTagLib (fun _ : Nat => Except.ok fun _ => true)
      [5] [1] 0 10 true wStateDown rfl).2 (fun _ => true) rfl).1⟩

/-- C7 counterexample: after shutdown, a `GetJournals` call whose selector
fails to compile returns the compilation error, not `serviceClosed`. -/
theorem getJournals_after_shutdown_not_serviceClosed :
    (GetJournals wTagLib (fun _ : Nat => Except.error Err.compileError)
        wStateDown 0 10 true).1 = Except.error Err.compileError ∧
    (GetJournals wTagLib (fun _ : Nat => Except.error Err.compileError)
        wStateDown 0 10 true).1 ≠ Except.error Err.serviceClosed := by
  constructor <;> decide

theorem runOp_after_shutdown (L : TagLib Str TS)
    (compile : Sel → Except Err (TS → Bool)) (st : SState Str TS)
    (op : Op Str Sel) (hdone : st.svc.done = true) :
    (runOp L compile st op).1.svc.tmap = st.svc.tmap ∧
    (runOp L compile st op).1.svc.done = true ∧
    (runOp L compile st op).2 = true := by
  cases op with
  | getOrCreate newId tags => simp [runOp, GetOrCreateJournal, hdone, isErr]
  | getJournals srcCond maxSize checkAll =>
    cases hc : compile srcCond with
    | error e => simp [runOp, GetJournals, hc, isErr, hdone]
    | ok tef => simp [runOp, GetJournals, hc, isErr, hdone]

/-- C8 (amended): once `Shutdown` has run, every later sequence of
`GetOrCreateJournal` / `GetJournals` calls leaves the index unchanged, keeps
the service shut down, and has every call fail; only `Init`, which clears the
`done` flag, can return the service to an accepting state. -/
theorem shutdown_terminal_for_calls (L : TagLib Str TS)
    (compile : Sel → Except Err (TS → Bool)) (st : SState Str TS)
    (ops : List (Op Str Sel)) (hdone : st.svc.done = true) :
    (runOps L compile st ops).1.svc.tmap = st.svc.tmap ∧
    (runOps L compile st ops).1.svc.done = true ∧
    ∀ b ∈ (runOps L compile st ops).2, b = true := by
  induction ops generalizing st with
  | nil =>
    refine ⟨rfl, hdone, ?_⟩
    intro b hb
    cases hb
  | cons op ops ih =>
    obtain ⟨h1, h2, h3⟩ := runOp_after_shutdown L compile st op hdone
    obtain ⟨g1, g2, g3⟩ := ih (runOp L compile st op).1 h2
    refine ⟨?_, ?_, ?_⟩
    · show (runOps L compile (runOp L compile st op).1 ops).1.svc.tmap = st.svc.tmap
      rw [g1, h1]
    · exact g2
    · intro b hb
      rcases List.mem_cons.mp hb with h | h
      · rw [h, h3]
      · exact g3 b h

/-- C8 witness of the amended claim: a concrete post-shutdown call sequence. -/
theorem shutdown_terminal_for_calls_witness :
    (runOps wTagLib (fun _ : Nat => Except.ok fun _ => true) wStateDown
        [Op.getOrCreate [5] [1], Op.getJournals 0 10 true]).1.svc.tmap =
      wStateDown.svc.tmap ∧
    (runOps wTagLib (fun _ : Nat => Except.ok fun _ => true) wStateDown
        [Op.getOrCreate [5] [1], Op.getJournals 0 10 true]).1.svc.done = true ∧
    ∀ b ∈ (runOps wTagLib (fun _ : Nat => Except.ok fun _ => true) wStateDown
        [Op.getOrCreate [5] [1], Op.getJournals 0 10 true]).2, b = true :=
  shutdown_terminal_for_calls wTagLib (fun _ : Nat => Except.ok fun _ => true)
    wStateDown [Op.getOrCreate [5] [1], Op.getJournals 0 10 true] rfl

theorem setL_length_le {m : List (Str × α)} {k : Str} {v : α} :
    (setL m k v).length ≤ m.length + 1 := by
  unfold setL
  split
  · simp
  · simp

theorem scanLoop_count_checkAll (L : TagLib Str TS) (tef : TS → Bool) (maxSize : Int)
    (l : List (Str × tagsDesc Str TS)) :
    ∀ count res, (scanLoop L tef maxSize true l count res).1 =
      count + (l.filter (fun p => tef p.2.tags)).length := by
  induction l with
  | nil => intro count res; simp [scanLoop]
  | cons td rest ih =>
    intro count res
    by_cases ht : tef td.2.tags
    · rw [List.filter_cons, if_pos (by simp [ht])]
      by_cases hlt : (res.length : Int) < maxSize
      · simp only [scanLoop, if_pos ht, if_pos hlt]
        rw [ih]
        simp only [List.length_cons]
        omega
      · simp only [scanLoop, if_pos ht, if_neg hlt, Bool.not_true, Bool.false_eq_true,
          if_false]
        rw [ih]
        simp only [List.length_cons]
        omega
    · rw [List.filter_cons, if_neg (by simp [ht])]
      simp only [scanLoop, if_neg ht]
      exact ih count res

theorem scanLoop_res_bound (L : TagLib Str TS) (tef : TS → Bool) (maxSize : Int)
    (checkAll : Bool) (l : List (Str × tagsDesc Str TS)) :
    ∀ count res, res.length ≤ maxSize.toNat →
      (scanLoop L tef maxSize checkAll l count res).2.length ≤ maxSize.toNat := by
  induction l with
  | nil => intro count res h; simpa [scanLoop] using h
  | cons td rest ih =>
    intro count res h
    by_cases ht : tef td.2.tags
    · by_cases hlt : (res.length : Int) < maxSize
      · simp only [scanLoop, if_pos ht, if_pos hlt]
        apply ih
        have h1 : (setL res (L.LineOf td.2.tags) td.2.Src).length ≤ res.length + 1 :=
          setL_length_le
        omega
      · cases checkAll with
        | true =>
          simp only [scanLoop, if_pos ht, if_neg hlt, Bool.not_true, Bool.false_eq_true,
            if_false]
          exact ih _ _ h
        | false =>
          simp only [scanLoop, if_pos ht, if_neg hlt, Bool.not_false, if_true]
          exact h
    · simp only [scanLoop, if_neg ht]
      exact ih _ _ h

theorem scanLoop_stop_count (L : TagLib Str TS) (tef : TS → Bool) (maxSize : Int)
    (hm : 0 ≤ maxSize) (l : List (Str × tagsDesc Str TS)) :
    ∀ count res,
      (l.map Prod.fst).Nodup →
      (∀ p ∈ l, p.1 = L.LineOf p.2.tags) →
      (∀ p ∈ l, lookupL res p.1 = none) →
      res.length ≤ maxSize.toNat →
      (scanLoop L tef maxSize false l count res).1 =
        count + min ((l.filter (fun p => tef p.2.tags)).length)
          (maxSize.toNat - res.length + 1) := by
  induction l with
  | nil => intro count res _ _ _ _; simp [scanLoop]
  | cons td rest ih =>
    intro count res hnd hwl hfresh hlen
    rw [List.map_cons, List.nodup_cons] at hnd
    by_cases ht : tef td.2.tags
    · rw [List.filter_cons, if_pos (by simp [ht])]
      by_cases hlt : (res.length : Int) < maxSize
      · simp only [scanLoop, if_pos ht, if_pos hlt]
        have hfr : lookupL res td.1 = none := hfresh td (List.mem_cons_self td rest)
        have hw1 : td.1 = L.LineOf td.2.tags := hwl td (List.mem_cons_self td rest)
        have hset : setL res (L.LineOf td.2.tags) td.2.Src =
            res ++ [(L.LineOf td.2.tags, td.2.Src)] := setL_absent (hw1 ▸ hfr)
        rw [hset, ih (count + 1) _ hnd.2
          (fun p hp => hwl p (List.mem_cons_of_mem td hp))
          (fun p hp => by
            have hfp : lookupL res p.1 = none := hfresh p (List.mem_cons_of_mem td hp)
            rw [lookupL_append hfp, lookupL_cons]
            have hne : L.LineOf td.2.tags ≠ p.1 := by
              rw [← hw1]
              exact fun he => hnd.1 (he ▸ List.mem_map_of_mem Prod.fst hp)
            rw [if_neg hne]
            rfl)
          (by
            simp only [List.length_append, List.length_singleton, List.length_cons,
              List.length_nil]
            omega)]
        simp only [List.length_cons, List.length_append, List.length_singleton,
          List.length_nil]
        omega
      · simp only [scanLoop, if_pos ht, if_neg hlt, Bool.not_false, if_true]
        simp only [List.length_cons]
        omega
    · rw [List.filter_cons, if_neg (by simp [ht])]
      simp only [scanLoop, if_neg ht]
      exact ih count res hnd.2 (fun p hp => hwl p (List.mem_cons_of_mem td hp))
        (fun p hp => hfresh p (List.mem_cons_of_mem td hp)) hlen

/-- C5: with a compiling selector, `GetJournals` with `scanAll = true` returns
a total count exactly equal to the number of entries satisfying the predicate
while the returned mapping holds at most `maxResults` entries; with
`scanAll = false` the scan stops early once the mapping has `maxResults`
entries, so the count is the number of matches capped at `maxResults + 1`. -/
theorem getJournals_scan (L : TagLib Str TS) (compile : Sel → Except Err (TS → Bool))
    (st : SState Str TS) (sel : Sel) (maxSize : Int) (tef : TS → Bool)
    (hc : compile sel = Except.ok tef)
    (hdone : st.svc.done = false)
    (hnd : (st.svc.tmap.map Prod.fst).Nodup)
    (hwl : ∀ p ∈ st.svc.tmap, p.1 = L.LineOf p.2.tags)
    (hm : 0 ≤ maxSize) :
    (∃ res count, (GetJournals L compile st sel maxSize true).1 = Except.ok (res, count) ∧
      count = (st.svc.tmap.filter (fun p => tef p.2.tags)).length ∧
      res.length ≤ maxSize.toNat) ∧
    (∃ res count, (GetJournals L compile st sel maxSize false).1 = Except.ok (res, count) ∧
      res.length ≤ maxSize.toNat ∧
      count = min ((st.svc.tmap.filter (fun p => tef p.2.tags)).length)
        (maxSize.toNat + 1)) := by
  obtain ⟨countT, resT, hsT⟩ :
      ∃ c r, scanLoop L tef maxSize true st.svc.tmap 0 [] = (c, r) := ⟨_, _, rfl⟩
  obtain ⟨countF, resF, hsF⟩ :
      ∃ c r, scanLoop L tef maxSize false st.svc.tmap 0 [] = (c, r) := ⟨_, _, rfl⟩
  constructor
  · refine ⟨resT, countT, ?_, ?_, ?_⟩
    · simp [GetJournals, hc, hdone, hsT]
    · have h := scanLoop_count_checkAll L tef maxSize st.svc.tmap 0 []
      rw [hsT] at h
      simpa using h
    · have h := scanLoop_res_bound L tef maxSize true st.svc.tmap 0 [] (by simp)
      rw [hsT] at h
      exact h
  · refine ⟨resF, countF, ?_, ?_, ?_⟩
    · simp [GetJournals, hc, hdone, hsF]
    · have h := scanLoop_res_bound L tef maxSize false st.svc.tmap 0 [] (by simp)
      rw [hsF] at h
      exact h
    · have h := scanLoop_stop_count L tef maxSize hm st.svc.tmap 0 [] hnd hwl
        (fun p _ => rfl) (by simp)
      rw [hsF] at h
      simpa using h

/-- C5 witness: five matching entries with `maxResults = 2`: `scanAll = true`
counts all five, `scanAll = false` stops at the third match; both cap the
mapping at two entries. -/
theorem getJournals_scan_witness :
    (∃ res count,
      (GetJournals wTagLib (fun _ : Nat => Except.ok fun _ => true) wStateFive 0 2 true).1 =
        Except.ok (res, count) ∧
      count = (wStateFive.svc.tmap.filter (fun p => (fun _ => true) p.2.tags)).length ∧
      res.length ≤ (2 : Int).toNat) ∧
    (∃ res count,
      (GetJournals wTagLib (fun _ : Nat => Except.ok fun _ => true) wStateFive 0 2 false).1 =
        Except.ok (res, count) ∧
      res.length ≤ (2 : Int).toNat ∧
      count = min ((wStateFive.svc.tmap.filter (fun p => (fun _ => true) p.2.tags)).length)
        ((2 : Int).toNat + 1)) :=
  getJournals_scan wTagLib (fun _ : Nat => Except.ok fun _ => true) wStateFive 0 2
    (fun _ => true) rfl rfl (by decide) (by decide) (by decide)

theorem reconLoop_mem_absent (knwn : List Str) (j : Str) (hj : j ∈ knwn) :
    ∀ km : List Str, j ∉ km → (reconLoop knwn km).1 = true := by
  induction knwn with
  | nil => cases hj
  | cons src rest ih =>
    intro km ha
    rcases List.mem_cons.mp hj with h | h
    · subst h
      simp only [reconLoop, if_neg ha]
    · by_cases hs : src ∈ km
      · simp only [reconLoop, if_pos hs]
        exact ih h _ fun hm => ha (List.mem_of_mem_filter hm)
      · simp only [reconLoop, if_neg hs]

theorem reconLoop_all_present (knwn : List Str) (hnd : knwn.Nodup) :
    ∀ km : List Str, (∀ j ∈ knwn, j ∈ km) → (reconLoop knwn km).1 = false := by
  induction knwn with
  | nil => intro km _; rfl
  | cons src rest ih =>
    intro km hall
    rw [List.nodup_cons] at hnd
    have hs : src ∈ km := hall src (List.mem_cons_self src rest)
    simp only [reconLoop, if_pos hs]
    apply ih hnd.2
    intro j hj
    refine List.mem_filter.mpr ⟨hall j (List.mem_cons_of_mem _ hj), ?_⟩
    have hne : j ≠ src := fun he => hnd.1 (he ▸ hj)
    simp [hne]

/-- C4: during startup reconciliation (with no persisted file, so the loaded
index is the in-memory one), a journal id known to the backend but referenced
by no Index Entry makes `Init` fail with `dataInconsistency` while keeping
every entry; and if every known journal is referenced, `Init` succeeds and
keeps every entry, even when some entries reference journals absent from the
backend's listing (they are only warned about). -/
theorem init_reconciliation (L : TagLib Str TS) (knwn : List Str)
    (st : SState Str TS)
    (hfile : st.disk.file = none)
    (hfw : st.disk.failWrite = false) :
    (∀ j ∈ knwn, j ∉ st.svc.tmap.map (fun p => p.2.Src) →
      (Init L knwn st).1 = Except.error Err.dataInconsistency ∧
      (Init L knwn st).2.svc.tmap = st.svc.tmap) ∧
    (knwn.Nodup → (∀ j ∈ knwn, j ∈ st.svc.tmap.map (fun p => p.2.Src)) →
      (Init L knwn st).1 = Except.ok () ∧
      (Init L knwn st).2.svc.tmap = st.svc.tmap) := by
  constructor
  · intro j hj hja
    have hfst : (reconLoop knwn ((st.svc.tmap.map (fun p => p.2.Src)).dedup)).1 = true :=
      reconLoop_mem_absent knwn j hj _ fun h => hja (List.mem_dedup.mp h)
    constructor <;> simp [Init, checkConsistency, loadState, hfile, hfst]
  · intro hnd hall
    have hfst : (reconLoop knwn ((st.svc.tmap.map (fun p => p.2.Src)).dedup)).1 = false :=
      reconLoop_all_present knwn hnd _ fun j hj => List.mem_dedup.mpr (hall j hj)
    obtain ⟨sres, d1, hsv⟩ :
        ∃ sres d1, saveStateUnsafe st.svc.Config st.svc.tmap st.disk = (sres, d1) :=
      ⟨_, _, rfl⟩
    have hok : sres = Except.ok () := by
      have h : (saveStateUnsafe st.svc.Config st.svc.tmap st.disk).1 = Except.ok () :=
        saveStateUnsafe_ok hfw
      rw [hsv] at h
      exact h
    subst hok
    constructor <;> simp [Init, checkConsistency, loadState, hfile, hfst, hsv]

/-- C4 witness: a backend listing with the orphan journal `[12]` makes `Init`
fail; a backend listing contained in the indexed journals lets `Init` succeed
with the stale entry for `[11]` kept. -/
theorem init_reconciliation_witness :
    ((Init wTagLib [[10], [12]] wStateAB).1 = Except.error Err.dataInconsistency ∧
      (Init wTagLib [[10], [12]] wStateAB).2.svc.tmap = wStateAB.svc.tmap) ∧
    ((Init wTagLib [[10]] wStateAB).1 = Except.ok () ∧
      (Init wTagLib [[10]] wStateAB).2.svc.tmap = wStateAB.svc.tmap) :=
  ⟨(init_reconciliation wTagLib [[10], [12]] wStateAB rfl rfl).1 [12]
      (by decide) (by decide),
   (init_reconciliation wTagLib [[10]] wStateAB rfl rfl).2 (by decide) (by decide)⟩

/-- C8 counterexample: `Init` invoked after `Shutdown` succeeds, clears the
shutdown flag, and a subsequent `GetOrCreateJournal` succeeds and mutates the
index — shutdown is not terminal over sequences that include `Init`. -/
theorem shutdown_revived_by_init :
    (Init wTagLib [] (Shutdown wState)).1 = Except.ok () ∧
    (GetOrCreateJournal wTagLib [5] (Init wTagLib [] (Shutdown wState)).2 [1]).1 =
      Except.ok [5] ∧
    (GetOrCreateJournal wTagLib [5] (Init wTagLib [] (Shutdown wState)).2 [1]).2.svc.tmap ≠
      (Init wTagLib [] (Shutdown wState)).2.svc.tmap := by
  refine ⟨by decide, by decide, by decide⟩

end tindex
